import Mathlib

/-!
Verification development for the CDP UI-testing client.

Shallow embedding of the protocol engine and element layer of the repository:
  * `main/utils/math.py` and `main/handlers/dom_handler.py` — `get_center_coordinates`
  * `main/handlers/base_handler.py` — message dispatch, `send_command`, the reader loop
  * `main/handlers/base_save.py` — `get_next_id`
  * `main/handlers/page_handler.py` — `wait_for_page_load`, `wait_for_page_dom_load`
  * `main/handlers/dom_handler.py` — `perform_search`, `get_search_results`,
    `find_element_by_xpath`

Machine integers do not occur (Python ints are unbounded, times are floats
modelled as `ℚ`); fallible code returns `Except`/`Option`.
-/

namespace CdpUi

/-- Python-style JSON-ish values, as they occur in parsed CDP frames. -/
inductive PyVal where
  | pynone
  | num (q : ℚ)
  | str (s : String)
  | boolean (b : Bool)
  | list (xs : List PyVal)
  | dict (fields : List (String × PyVal))

/-- Python exceptions relevant to `get_center_coordinates`.  `otherExn` stands
for any exception outside the caught `(KeyError, IndexError, TypeError)` tuple. -/
inductive PyExn where
  | keyError
  | indexError
  | typeError
  | otherExn
  deriving DecidableEq

/-- Python truthiness (`if not model`). -/
def pyTruthy : PyVal → Bool
  | .pynone => false
  | .num q => decide (q ≠ 0)
  | .str s => decide (s ≠ "")
  | .boolean b => b
  | .list xs => !xs.isEmpty
  | .dict fields => !fields.isEmpty

/-- First binding of a key in an association list (our dicts never repeat keys). -/
def lookupField : List (String × PyVal) → String → Option PyVal
  | [], _ => none
  | (k, v) :: rest, key => if k = key then some v else lookupField rest key

/-- Python `v[key]` for a string key: `KeyError` on a dict without the key,
`TypeError` on non-dict values. -/
def pyGetKey (v : PyVal) (key : String) : Except PyExn PyVal :=
  match v with
  | .dict fields =>
    match lookupField fields key with
    | some x => .ok x
    | none => .error .keyError
  | _ => .error .typeError

/-- Python `v[i]` for a natural index: `IndexError` past the end of a list or
string, `KeyError` on a string-keyed dict, `TypeError` otherwise. -/
def pyIndex (v : PyVal) (i : Nat) : Except PyExn PyVal :=
  match v with
  | .list xs => if h : i < xs.length then .ok (xs.get ⟨i, h⟩) else .error .indexError
  | .str s =>
    if h : i < s.data.length then .ok (.str (String.mk [s.data.get ⟨i, h⟩]))
    else .error .indexError
  | .dict _ => .error .keyError
  | _ => .error .typeError

/-- Python `a + b`: numbers (with `bool` coerced to `0`/`1`) add, strings and
lists concatenate, anything else is a `TypeError`. -/
def pyAdd (a b : PyVal) : Except PyExn PyVal :=
  match a, b with
  | .num x, .num y => .ok (.num (x + y))
  | .num x, .boolean c => .ok (.num (x + if c then 1 else 0))
  | .boolean c, .num y => .ok (.num ((if c then 1 else 0) + y))
  | .boolean c, .boolean d => .ok (.num ((if c then (1 : ℚ) else 0) + if d then 1 else 0))
  | .str x, .str y => .ok (.str (x ++ y))
  | .list xs, .list ys => .ok (.list (xs ++ ys))
  | _, _ => .error .typeError

/-- Python `v / 2` as used in the centre computation: defined on numbers (and
`bool`), `TypeError` otherwise. -/
def pyHalf (v : PyVal) : Except PyExn ℚ :=
  match v with
  | .num x => .ok (x / 2)
  | .boolean c => .ok ((if c then (1 : ℚ) else 0) / 2)
  | _ => .error .typeError

/-- Return value of `get_center_coordinates`: a coordinate pair or Python `False`. -/
inductive CenterResult where
  | center (x y : ℚ)
  | fail
  deriving DecidableEq

/-- Body of the `try` block of `get_center_coordinates`:
`x = (model["content"][0] + model["content"][2]) / 2;`
`y = (model["content"][1] + model["content"][5]) / 2`. -/
def centerBody (model : PyVal) : Except PyExn (ℚ × ℚ) := do
  let c1 ← pyGetKey model "content"
  let a0 ← pyIndex c1 0
  let c2 ← pyGetKey model "content"
  let a2 ← pyIndex c2 2
  let sx ← pyAdd a0 a2
  let x ← pyHalf sx
  let c3 ← pyGetKey model "content"
  let a1 ← pyIndex c3 1
  let c4 ← pyGetKey model "content"
  let a5 ← pyIndex c4 5
  let sy ← pyAdd a1 a5
  let y ← pyHalf sy
  return (x, y)

/-- The exception classes named in the `except (KeyError, IndexError, TypeError)`
clause of `get_center_coordinates`. -/
def caughtByCenter : PyExn → Bool
  | .keyError => true
  | .indexError => true
  | .typeError => true
  | .otherExn => false

/-- `get_center_coordinates` from `main/utils/math.py` (the copy in
`main/handlers/dom_handler.py` is textually identical): empty/falsy model
returns `False`; the computed pair otherwise; the three listed exception
classes are caught and turned into `False`; any other exception escapes. -/
def get_center_coordinates (model : PyVal) : Except PyExn CenterResult :=
  if pyTruthy model = false then .ok .fail
  else
    match centerBody model with
    | .ok (x, y) => .ok (.center x y)
    | .error e => if caughtByCenter e then .ok .fail else .error e

/-- Box model whose `content` quadrilateral lists the four corner coordinates
in order `[x1, y1, x2, y2, x3, y3, x4, y4]`. -/
def mkBoxModel (x1 y1 x2 y2 x3 y3 x4 y4 : ℚ) : PyVal :=
  .dict [("content", .list [.num x1, .num y1, .num x2, .num y2,
                            .num x3, .num y3, .num x4, .num y4])]

/-- Modelled from the claim's words, for comparison with the code: centre with
`x` the midpoint of the first and third corners' x coordinates and `y` the
midpoint of the first and fourth corners' y coordinates. -/
def claimedCenter (x1 y1 x2 y2 x3 y3 x4 y4 : ℚ) : ℚ × ℚ :=
  ((x1 + x3) / 2, (y1 + y4) / 2)

/-!  Correlation and dispatch engine (`main/handlers/base_handler.py`).
Payloads (`result`, `params`) are never inspected by the routing code, so the
model is parametric in the payload type `π`. -/

/-- A parsed incoming frame, as seen by `BaseHandler._process_message`. -/
structure WireMsg (π : Type) where
  rid : Option Nat
  method : Option String
  result : Option π
  error : Option String
  params : Option π
  deriving DecidableEq

/-- How `_process_message` completes a future: `set_exception` with the error
message if `'error' in message`, else `set_result(message.get('result'))`. -/
def frameOutcome {π : Type} (f : WireMsg π) : Except String (Option π) :=
  match f.error with
  | some e => .error e
  | none => .ok f.result

instance {ε α : Type} [DecidableEq ε] [DecidableEq α] : DecidableEq (Except ε α) := fun a b =>
  match a, b with
  | .error x, .error y => decidable_of_iff (x = y) ⟨fun h => by rw [h], fun h => by injection h⟩
  | .ok x, .ok y => decidable_of_iff (x = y) ⟨fun h => by rw [h], fun h => by injection h⟩
  | .error _, .ok _ => isFalse fun h => by injection h
  | .ok _, .error _ => isFalse fun h => by injection h

/-- Observable state of the dispatch engine: identifiers with an outstanding
future, futures completed so far (in completion order), and the event-callback
invocations made so far (in dispatch order). -/
structure DState (π : Type) where
  pending : List Nat
  resolved : List (Nat × Except String (Option π))
  events : List (String × Option π)
  deriving DecidableEq

/-- `BaseHandler._process_message`: a frame whose `id` matches a pending
request pops and completes that request; otherwise a frame with a `method`
is dispatched to the event listeners; anything else is dropped. -/
def processMessage {π : Type} (s : DState π) (f : WireMsg π) : DState π :=
  match f.rid with
  | some i =>
    if i ∈ s.pending then
      { s with pending := s.pending.erase i
               resolved := s.resolved ++ [(i, frameOutcome f)] }
    else
      match f.method with
      | some m => { s with events := s.events ++ [(m, f.params)] }
      | none => s
  | none =>
    match f.method with
    | some m => { s with events := s.events ++ [(m, f.params)] }
    | none => s

/-- The dispatch loop applied to a sequence of parsed incoming frames. -/
def runDispatch {π : Type} (s : DState π) (frames : List (WireMsg π)) : DState π :=
  frames.foldl processMessage s

/-- Association-list lookup for the `resolved` table. -/
def rlookup {α : Type} (i : Nat) : List (Nat × α) → Option α
  | [] => none
  | (j, o) :: rest => if j = i then some o else rlookup i rest

/-- A frame is the reply for identifier `i` when it carries that `id`. -/
def isReplyTo {π : Type} (i : Nat) (f : WireMsg π) : Bool :=
  f.rid == some i

/-- The callback invocation a notification frame produces (wire format: a
`method` and no `id`). -/
def notifEvent {π : Type} (f : WireMsg π) : Option (String × Option π) :=
  match f.rid, f.method with
  | none, some m => some (m, f.params)
  | _, _ => none

/-- Well-formed wire traffic (§6 of the design): a frame is either a reply
(has `id`, no `method`) or a notification (has `method`, no `id`). -/
def WfWire {π : Type} (f : WireMsg π) : Prop :=
  (f.rid.isSome ∧ f.method = none) ∨ (f.rid = none ∧ f.method.isSome)

instance {π : Type} (f : WireMsg π) : Decidable (WfWire f) :=
  inferInstanceAs (Decidable ((f.rid.isSome ∧ f.method = none) ∨ (f.rid = none ∧ f.method.isSome)))

/-!  `send_command` and identifier allocation. -/

/-- Session-level state touched by `send_command`: the pending-request table
and the `_next_id` counter (initially `1`). -/
structure Session where
  pending : List Nat
  nextId : Nat
  deriving DecidableEq

/-- Errors `send_command` raises. -/
inductive CmdError where
  | commandTimeout (method : String) (elapsed : Nat)
  | connectionClosed (msg : String)
  deriving DecidableEq

/-- Fate of one issued command, from the caller's point of view: its reply
arrives within the timeout with a payload, or it times out. -/
inductive Fate (π : Type) where
  | timeout
  | reply (v : Option π)

/-- `BaseHandler.send_command`: allocate `request_id = self._next_id` and bump
the counter, register the pending future, send, and await.  On
`asyncio.TimeoutError` the pending entry is deleted and a timeout error
identifying the method and elapsed seconds is raised; on a reply the entry was
already popped by `_process_message`. -/
def send_command {π : Type} (st : Session) (method : String) (tmo : Nat)
    (fate : Fate π) : Except CmdError (Option π) × Session :=
  let rid := st.nextId
  let registered : List Nat := st.pending ++ [rid]
  match fate with
  | .timeout => (.error (.commandTimeout method tmo), ⟨registered.erase rid, rid + 1⟩)
  | .reply v => (.ok v, ⟨registered.erase rid, rid + 1⟩)

/-- The operations that touch the pending table and the identifier counter
during a session: issuing a command (`send_command` registration), a matching
reply arriving (`_process_message` pop), and a command timing out
(`del self._pending_requests[request_id]`). -/
inductive SessOp where
  | sendCmd
  | recvReply (i : Nat)
  | timeoutCmd (i : Nat)
  deriving DecidableEq

/-- Effect of one session operation on the pending table and counter. -/
def sessStep (st : Session) : SessOp → Session
  | .sendCmd => ⟨st.pending ++ [st.nextId], st.nextId + 1⟩
  | .recvReply i => if i ∈ st.pending then ⟨st.pending.erase i, st.nextId⟩ else st
  | .timeoutCmd i => ⟨st.pending.erase i, st.nextId⟩

/-- A session trace. -/
def runSession (st : Session) (ops : List SessOp) : Session :=
  ops.foldl sessStep st

/-- The request identifiers issued along a trace, in issue order (each
`sendCmd` yields the counter value, as `get_next_id` does). -/
def issuedIds (st : Session) : List SessOp → List Nat
  | [] => []
  | op :: rest =>
    (match op with | .sendCmd => [st.nextId] | _ => []) ++ issuedIds (sessStep st op) rest

/-- Fresh session: empty pending table, counter at `1`. -/
def initSession : Session := ⟨[], 1⟩

/-!  The background reader (`BaseHandler._handle_messages`). -/

/-- A raw frame as received from the socket, before JSON parsing. -/
inductive RawFrame (π : Type) where
  | wellFormed (f : WireMsg π)
  | malformed
  | connClosed
  deriving DecidableEq

/-- `BaseHandler._handle_messages`: receive, parse, process, forever — but
both `websockets.exceptions.ConnectionClosed` and `json.JSONDecodeError` are
caught by the same clause, which logs and `break`s out of the loop.  The
returned flag records whether the loop exited (`true`) or is still running
with the input exhausted (`false`). -/
def runReader {π : Type} (s : DState π) : List (RawFrame π) → DState π × Bool
  | [] => (s, false)
  | .wellFormed f :: rest => runReader (processMessage s f) rest
  | .malformed :: _ => (s, true)
  | .connClosed :: _ => (s, true)

/-!  Readiness state machines (`main/handlers/page_handler.py`). -/

/-- The CDP notifications the two wait loops classify.  `domChanged` stands
for the four DOM-mutation methods (`DOM.childNodeInserted`,
`DOM.childNodeRemoved`, `DOM.attributeModified`, `DOM.inlineStyleInvalidated`);
`unrelated` is any other method or a frame event without a truthy `frameId`. -/
inductive PgEvent where
  | frameStarted (fid : Nat)
  | frameStopped (fid : Nat)
  | frameDetached (fid : Nat)
  | loadFired
  | domChanged
  | unrelated
  deriving DecidableEq

/-- State tracked by `wait_for_page_load`: the set of currently loading frame
identifiers and the `load_event_fired` flag. -/
structure LoadState where
  activeFrames : List Nat
  loadFired : Bool
  deriving DecidableEq

/-- `set.add`: insert a frame identifier if not already present. -/
def addFrame (l : List Nat) (fid : Nat) : List Nat :=
  if fid ∈ l then l else fid :: l

/-- Event handling of `wait_for_page_load`: grow the frame set on
`Page.frameStartedLoading`, shrink it on `Page.frameStoppedLoading` and
`Page.frameDetached`, set the flag on `Page.loadEventFired`. -/
def pgStep (s : LoadState) : PgEvent → LoadState
  | .frameStarted fid => { s with activeFrames := addFrame s.activeFrames fid }
  | .frameStopped fid => { s with activeFrames := s.activeFrames.erase fid }
  | .frameDetached fid => { s with activeFrames := s.activeFrames.erase fid }
  | .loadFired => { s with loadFired := true }
  | .domChanged => s
  | .unrelated => s

/-- `load_event_fired and not active_frames` — the settled condition. -/
def loadSettledCond (s : LoadState) : Bool :=
  s.loadFired && s.activeFrames.isEmpty

/-- Outcome of one `receive` attempt inside `wait_for_page_load`: the 1-second
`asyncio.wait_for` elapses (`rto` — the loop then re-checks the settled
condition), the frame fails to decode (`badJson` — logged, `continue` without
a settled check), or a parsed message arrives. -/
inductive LoadRecv where
  | rto
  | badJson
  | msg (e : PgEvent)
  deriving DecidableEq

/-- One iteration of the `wait_for_page_load` loop: the elapsed time observed
at the top of the iteration and the receive outcome. -/
structure LoadItem where
  t : ℚ
  recv : LoadRecv
  deriving DecidableEq

/-- How a `wait_for_page_load` run ends. -/
inductive LoadOutcome where
  | settled
  | timedOut
  deriving DecidableEq

/-- `PageHandler.wait_for_page_load`: at the top of each iteration the overall
timeout is checked (`elapsed > timeout` breaks as timed out); a receive
timeout or a processed message then breaks as settled when the load event has
fired and no frame is loading.  `none` means the modelled input was exhausted
with the loop still running. -/
def wait_for_page_load (tmo : ℚ) : LoadState → List LoadItem → Option LoadOutcome
  | _, [] => none
  | s, it :: rest =>
    if tmo < it.t then some .timedOut
    else
      match it.recv with
      | .rto => if loadSettledCond s then some .settled else wait_for_page_load tmo s rest
      | .badJson => wait_for_page_load tmo s rest
      | .msg e =>
        let s1 := pgStep s e
        if loadSettledCond s1 then some .settled else wait_for_page_load tmo s1 rest

/-- State evolution of the page-load wait, ignoring exit checks: only parsed
messages change the tracked state. -/
def loadFoldStep (s : LoadState) (it : LoadItem) : LoadState :=
  match it.recv with
  | .msg e => pgStep s e
  | _ => s

/-- Tracked state after a list of iterations. -/
def loadFold (s : LoadState) (items : List LoadItem) : LoadState :=
  items.foldl loadFoldStep s

/-- Initial state of a page-load wait: no loading frames, flag down. -/
def initLoad : LoadState := ⟨[], false⟩

/-!  DOM-stability wait (`PageHandler.wait_for_page_dom_load`). -/

/-- State tracked by `wait_for_page_dom_load`: the last-activity timestamp,
the loading-frame set, and the DOM-activity and load-event flags. -/
structure DomState where
  lastActivity : ℚ
  activeFrames : List Nat
  domActivity : Bool
  loadFired : Bool
  deriving DecidableEq

/-- Event handling of `wait_for_page_dom_load`: `Page.frameStartedLoading`
also raises the DOM-activity flag; the four DOM-mutation methods raise it;
frame stop/detach shrink the frame set; `Page.loadEventFired` sets the flag. -/
def domEventStep (s : DomState) : PgEvent → DomState
  | .frameStarted fid => { s with activeFrames := addFrame s.activeFrames fid, domActivity := true }
  | .frameStopped fid => { s with activeFrames := s.activeFrames.erase fid }
  | .frameDetached fid => { s with activeFrames := s.activeFrames.erase fid }
  | .domChanged => { s with domActivity := true }
  | .loadFired => { s with loadFired := true }
  | .unrelated => s

/-- The dictionary `wait_for_page_dom_load` returns. -/
structure DomResult where
  status : String
  active_frames : Nat
  dom_activity : Bool
  load_event_fired : Bool
  duration : ℚ
  deriving DecidableEq

/-- Which break ended the DOM-stability wait (observable only in the logs,
not in the returned dictionary). -/
inductive DomExit where
  | byTimeout
  | byInactivity
  | byLoadEvent
  deriving DecidableEq

/-- The returned dictionary: a constant `"completed"` status, the loading
frame count, the two flags, and the elapsed duration. -/
def mkDomResult (s : DomState) (now : ℚ) : DomResult :=
  ⟨"completed", s.activeFrames.length, s.domActivity, s.loadFired, now⟩

/-- Outcome of one receive attempt inside `wait_for_page_dom_load`: timeout of
the inner `asyncio.wait_for`, an empty/undecodable frame (`continue` without
refreshing `last_activity`), or a parsed message stamped with its arrival
time `tm` (any parsed message refreshes `last_activity`, whatever its method). -/
inductive DomRecv where
  | rto
  | badMsg
  | msg (tm : ℚ) (e : PgEvent)
  deriving DecidableEq

/-- One iteration of the `wait_for_page_dom_load` loop: time at the top of
the iteration, then the receive outcome. -/
structure DomItem where
  t : ℚ
  recv : DomRecv
  deriving DecidableEq

/-- After processing one parsed message, `wait_for_page_dom_load` breaks out
early when the message was `Page.loadEventFired` and no frame is loading;
every other message hands the updated state to the next iteration. -/
def domClassify (s1 : DomState) (e : PgEvent) (tm : ℚ) :
    Except (DomExit × DomResult) DomState :=
  match e with
  | .loadFired =>
    if s1.activeFrames.isEmpty then .error (.byLoadEvent, mkDomResult s1 tm) else .ok s1
  | _ => .ok s1

/-- One iteration of `wait_for_page_dom_load`: break with a result when the
overall timeout has elapsed (`now - start_time > timeout`), when no parsed
message arrived within the inactivity window (`now - last_activity >
inactivity_timeout`), or when `Page.loadEventFired` is processed while no
frame is loading; otherwise hand the updated state to the next iteration. -/
def domIterate (tmo inact : ℚ) (s : DomState) (it : DomItem) :
    Except (DomExit × DomResult) DomState :=
  if tmo < it.t then .error (.byTimeout, mkDomResult s it.t)
  else if inact < it.t - s.lastActivity then .error (.byInactivity, mkDomResult s it.t)
  else
    match it.recv with
    | .rto => .ok s
    | .badMsg => .ok s
    | .msg tm e => domClassify (domEventStep { s with lastActivity := tm } e) e tm

/-- `PageHandler.wait_for_page_dom_load` as a loop over iterations; `none`
means the modelled input was exhausted with the loop still running. -/
def wait_for_page_dom_load (tmo inact : ℚ) : DomState → List DomItem → Option (DomExit × DomResult)
  | _, [] => none
  | s, it :: rest =>
    match domIterate tmo inact s it with
    | .error er => some er
    | .ok s1 => wait_for_page_dom_load tmo inact s1 rest

/-- State after one iteration when it did not break (identity on a break,
which never feeds a next iteration). -/
def domNext (tmo inact : ℚ) (s : DomState) (it : DomItem) : DomState :=
  match domIterate tmo inact s it with
  | .ok s1 => s1
  | .error _ => s

/-- Tracked state after a list of non-breaking iterations. -/
def domFold (tmo inact : ℚ) (s : DomState) (items : List DomItem) : DomState :=
  items.foldl (domNext tmo inact) s

/-- Whether every iteration of a list hands control to the next one. -/
def domAllOk (tmo inact : ℚ) : DomState → List DomItem → Bool
  | _, [] => true
  | s, it :: rest =>
    match domIterate tmo inact s it with
    | .ok s1 => domAllOk tmo inact s1 rest
    | .error _ => false

/-- Initial state of a DOM-stability wait (`start_time = last_activity = 0`
relative to the start). -/
def initDom : DomState := ⟨0, [], false, false⟩

/-!  Search resolver (`main/handlers/dom_handler.py`). -/

/-- The CDP commands `find_element_by_xpath` and its helpers put on the wire,
with the parameters relevant to the search protocol. -/
inductive CdpCall where
  | getDocument
  | performSearch (query : String)
  | getSearchResults (searchId : Option String) (fromIndex toIndex : Nat)
  | describeNode (nodeId : Option Nat)
  | getBoxModel (nodeId : Option Nat)
  deriving DecidableEq

/-- Scripted replies for one `find_element_by_xpath` run: the effective
`searchId` and `resultCount` extracted from the `DOM.performSearch` reply, the
`result.nodeIds` field of the `DOM.getSearchResults` reply, the
`result.nodeIds` fields of subsequently received frames, and the fields read
from the remaining replies. -/
structure SearchOracle where
  searchId : Option String
  resultCount : Nat
  firstNodeIds : Option (List Nat)
  drainFrames : List (Option (List Nat))
  backendNodeId : Option Nat
  nodeName : Option String
  boxModel : Option PyVal
  documentURL : Option String

/-- Python truthiness of the extracted `searchId` (`if not search_id`). -/
def sidTruthy : Option String → Bool
  | some s => decide (s ≠ "")
  | none => false

/-- `DOMHandler.perform_search`: issue `DOM.performSearch`; return `None` when
the reply carries no truthy `searchId` or a zero `resultCount`, else the
search identifier.  Also returns the calls put on the wire. -/
def perform_search (o : SearchOracle) (xpath : String) : Option String × List CdpCall :=
  let calls := [CdpCall.performSearch xpath]
  if sidTruthy o.searchId = false then (none, calls)
  else if o.resultCount = 0 then (none, calls)
  else (o.searchId, calls)

/-- The drain loop of `DOMHandler.get_search_results`: while the parsed reply
has no `result.nodeIds` field, receive another frame; stop at the first frame
carrying one.  Exhausting the input models blocking forever on `receive`. -/
def drainNodeIds : Option (List Nat) → List (Option (List Nat)) → Option (List Nat)
  | some ids, _ => some ids
  | none, [] => none
  | none, f :: rest =>
    match f with
    | some ids => some ids
    | none => drainNodeIds none rest

/-- Number of extra frames the drain loop reads from the socket. -/
def drainReceives : Option (List Nat) → List (Option (List Nat)) → Nat
  | some _, _ => 0
  | none, [] => 0
  | none, f :: rest =>
    1 + (match f with | some _ => 0 | none => drainReceives none rest)

/-- `DOMHandler.get_search_results`: issue `DOM.getSearchResults` for indices
`0..1` with whatever `search_id` was passed (including `None`), drain frames
until one carries `result.nodeIds`, then take `nodeIds[0]` — an `IndexError`
on an empty list is caught and yields `None`. -/
def get_search_results (o : SearchOracle) (sid : Option String) : Option Nat × List CdpCall :=
  ((drainNodeIds o.firstNodeIds o.drainFrames).bind List.head?,
   [CdpCall.getSearchResults sid 0 1])

/-- The element record `find_element_by_xpath` builds. -/
structure FoundElement where
  node_id : Option Nat
  backend_node_id : Option Nat
  node_name : Option String
  box_model : Option PyVal
  document_url : Option String

/-- `DOMHandler.find_element_by_xpath`: fetch the document, run
`perform_search`, then unconditionally call `get_search_results` with its
result (even `None`), then `describe_node` and `get_box_model` on the obtained
node identifier, and build the `Element`.  Returns the element and the calls
put on the wire, in order. -/
def find_element_by_xpath (o : SearchOracle) (xpath : String) :
    Option FoundElement × List CdpCall :=
  let ps := perform_search o xpath
  let gs := get_search_results o ps.1
  (some { node_id := gs.1
          backend_node_id := o.backendNodeId
          node_name := o.nodeName
          box_model := o.boxModel
          document_url := o.documentURL },
   CdpCall.getDocument :: ps.2 ++ gs.2 ++ [CdpCall.describeNode gs.1, CdpCall.getBoxModel gs.1])

/-!  Theorems.  Claims C1–C10 of the specification are settled below; helper
lemmas precede the claim theorems they support. -/

lemma ok_ne_error {α : Type} (a : α) (e : PyExn) :
    (Except.ok a : Except PyExn α) ≠ .error e := fun h => by injection h

lemma error_ne_other {α : Type} {e : PyExn} (he : e ≠ .otherExn) :
    (Except.error e : Except PyExn α) ≠ .error .otherExn := fun h => he (by injection h)

lemma pyGetKey_ne_other (v : PyVal) (key : String) :
    pyGetKey v key ≠ .error .otherExn := by
  cases v
  case dict fields =>
    simp only [pyGetKey]
    split
    · exact ok_ne_error _ _
    · exact error_ne_other (by decide)
  all_goals exact error_ne_other (by decide)

lemma pyIndex_ne_other (v : PyVal) (i : Nat) :
    pyIndex v i ≠ .error .otherExn := by
  cases v
  case list xs =>
    simp only [pyIndex]
    split
    · exact ok_ne_error _ _
    · exact error_ne_other (by decide)
  case str s =>
    simp only [pyIndex]
    split
    · exact ok_ne_error _ _
    · exact error_ne_other (by decide)
  all_goals exact error_ne_other (by decide)

lemma pyAdd_ne_other (a b : PyVal) : pyAdd a b ≠ .error .otherExn := by
  cases a <;> cases b <;>
    first
    | exact ok_ne_error _ _
    | exact error_ne_other (by decide)

lemma pyHalf_ne_other (v : PyVal) : pyHalf v ≠ .error .otherExn := by
  cases v <;>
    first
    | exact ok_ne_error _ _
    | exact error_ne_other (by decide)

lemma bind_ne_other {α β : Type} {x : Except PyExn α} {f : α → Except PyExn β}
    (hx : x ≠ .error .otherExn) (hf : ∀ a, x = .ok a → f a ≠ .error .otherExn) :
    (x >>= f) ≠ .error .otherExn := by
  rcases x with e | a
  · simpa [Bind.bind, Except.bind] using hx
  · simpa [Bind.bind, Except.bind] using hf a rfl

lemma centerBody_ne_other (model : PyVal) : centerBody model ≠ .error .otherExn := by
  simp only [centerBody]
  apply bind_ne_other (pyGetKey_ne_other _ _); intro c1 _
  apply bind_ne_other (pyIndex_ne_other _ _); intro a0 _
  apply bind_ne_other (pyGetKey_ne_other _ _); intro c2 _
  apply bind_ne_other (pyIndex_ne_other _ _); intro a2 _
  apply bind_ne_other (pyAdd_ne_other _ _); intro sx _
  apply bind_ne_other (pyHalf_ne_other _); intro x _
  apply bind_ne_other (pyGetKey_ne_other _ _); intro c3 _
  apply bind_ne_other (pyIndex_ne_other _ _); intro a1 _
  apply bind_ne_other (pyGetKey_ne_other _ _); intro c4 _
  apply bind_ne_other (pyIndex_ne_other _ _); intro a5 _
  apply bind_ne_other (pyAdd_ne_other _ _); intro sy _
  apply bind_ne_other (pyHalf_ne_other _); intro y _
  intro h
  simp [Pure.pure, Except.pure] at h

/-- C10: the centre-coordinate computation is total over arbitrary box-model
values: on every input it returns a coordinate pair or the distinguished
failure value `False`, and never lets an exception escape to its caller — the
only exceptions the body can raise are the `KeyError`/`IndexError`/`TypeError`
the function catches. -/
theorem center_coordinates_total (model : PyVal) :
    ∃ r : CenterResult, get_center_coordinates model = .ok r := by
  unfold get_center_coordinates
  split
  · exact ⟨.fail, rfl⟩
  · rcases hb : centerBody model with e | p
    · cases e
      · exact ⟨.fail, rfl⟩
      · exact ⟨.fail, rfl⟩
      · exact ⟨.fail, rfl⟩
      · exact absurd hb (centerBody_ne_other model)
    · exact ⟨.center p.1 p.2, rfl⟩

/-- C8 counterexample: on a non-rectangular content quadrilateral the code's
click point differs from the claimed "first and third corners' x, first and
fourth corners' y" midpoints — the code uses the second corner's x and the
third corner's y. -/
theorem center_coordinates_counterexample :
    get_center_coordinates (mkBoxModel 0 0 2 10 4 20 6 30) = .ok (.center 1 10)
    ∧ claimedCenter 0 0 2 10 4 20 6 30 = (2, 15)
    ∧ ((1 : ℚ), (10 : ℚ)) ≠ ((2 : ℚ), (15 : ℚ)) := by
  refine ⟨?_, ?_, ?_⟩
  · have h1 : get_center_coordinates (mkBoxModel 0 0 2 10 4 20 6 30)
        = .ok (.center ((0 + 2) / 2) ((0 + 20) / 2)) := rfl
    rw [h1, show ((0 : ℚ) + 2) / 2 = 1 by norm_num, show ((0 : ℚ) + 20) / 2 = 10 by norm_num]
  · simp only [claimedCenter]
    norm_num
  · intro h
    have := congrArg Prod.fst h
    norm_num at this

/-- C8 (amended): for every box model whose content quadrilateral lists the
four corner coordinates in order, the click-point computation returns `x`
equal to the midpoint of the first and second corners' x coordinates (list
entries 0 and 2) and `y` equal to the midpoint of the first and third
corners' y coordinates (list entries 1 and 5). -/
theorem center_coordinates_formula (x1 y1 x2 y2 x3 y3 x4 y4 : ℚ) :
    get_center_coordinates (mkBoxModel x1 y1 x2 y2 x3 y3 x4 y4)
      = .ok (.center ((x1 + x2) / 2) ((y1 + y3) / 2)) := rfl

/-- C6: with `resultCount = 0`, `perform_search` itself short-circuits to a
not-found `None`, but `find_element_by_xpath` nevertheless issues the
pagination call `DOM.getSearchResults` — with a `None` search identifier —
and goes on to `DOM.describeNode`/`DOM.getBoxModel`; with a positive count
the same pagination call is issued with the real identifier and the first
returned node identifier is used. -/
theorem find_element_zero_count_issues_pagination :
    (perform_search ⟨some "s1", 0, none, [], none, none, none, none⟩ "//div").1 = none
    ∧ (find_element_by_xpath ⟨some "s1", 0, none, [], none, none, none, none⟩ "//div").2
        = [.getDocument, .performSearch "//div", .getSearchResults none 0 1,
           .describeNode none, .getBoxModel none]
    ∧ CdpCall.getSearchResults none 0 1
        ∈ (find_element_by_xpath ⟨some "s1", 0, none, [], none, none, none, none⟩ "//div").2
    ∧ (find_element_by_xpath
        ⟨some "s1", 5, some [7], [], some 42, some "DIV", none, some "u"⟩ "//div").2
        = [.getDocument, .performSearch "//div", .getSearchResults (some "s1") 0 1,
           .describeNode (some 7), .getBoxModel (some 7)]
    ∧ ((find_element_by_xpath
        ⟨some "s1", 5, some [7], [], some 42, some "DIV", none, some "u"⟩ "//div").1).map
          FoundElement.node_id = some (some 7) := by
  refine ⟨rfl, rfl, ?_, rfl, rfl⟩
  decide

lemma drainNodeIds_finds (frames : List (Option (List Nat))) :
    drainNodeIds none frames = (frames.find? (fun f => f.isSome)).bind id := by
  induction frames with
  | nil => rfl
  | cons f rest ih =>
    cases f with
    | some ids => rfl
    | none => simpa [drainNodeIds, List.find?] using ih

lemma drainNodeIds_all_none (frames : List (Option (List Nat)))
    (h : ∀ f ∈ frames, f = none) : drainNodeIds none frames = none := by
  induction frames with
  | nil => rfl
  | cons f rest ih =>
    have hf := h f (by simp)
    subst hf
    exact ih fun g hg => h g (by simp [hg])

lemma drainReceives_all_none (frames : List (Option (List Nat)))
    (h : ∀ f ∈ frames, f = none) : drainReceives none frames = frames.length := by
  induction frames with
  | nil => rfl
  | cons f rest ih =>
    have hf := h f (by simp)
    subst hf
    simp only [drainReceives, List.length_cons]
    rw [ih fun g hg => h g (by simp [hg])]
    omega

/-- C7 counterexample: the drain loop of `get_search_results` admits no upper
bound on the number of frames it reads — for every candidate bound there is an
input exceeding it — and on a 1000-frame sequence with no populated
node-identifier list it reads all 1000 frames and is still waiting. -/
theorem search_drain_unbounded :
    (¬ ∃ B : ℕ, ∀ frames : List (Option (List Nat)), drainReceives none frames ≤ B)
    ∧ drainReceives none (List.replicate 1000 none) = 1000
    ∧ drainNodeIds none (List.replicate 1000 none) = none := by
  refine ⟨?_, ?_, ?_⟩
  · rintro ⟨B, hB⟩
    have h1 := hB (List.replicate (B + 1) none)
    have h2 : drainReceives none (List.replicate (B + 1) none) = B + 1 := by
      rw [drainReceives_all_none _ fun f hf => List.eq_of_mem_replicate hf]
      exact List.length_replicate _ _
    omega
  · rw [drainReceives_all_none _ fun f hf => List.eq_of_mem_replicate hf]
    exact List.length_replicate _ _
  · exact drainNodeIds_all_none _ fun f hf => List.eq_of_mem_replicate hf

/-- C7 (amended): the drain loop terminates exactly at the first received
frame carrying a `result.nodeIds` field (the initial reply included); when no
such frame ever arrives it consumes the entire input and is still blocked,
having performed one receive per frame — there is no upper bound tied to the
command timeout. -/
theorem search_drain_spec (frames : List (Option (List Nat))) :
    drainNodeIds none frames = (frames.find? (fun f => f.isSome)).bind id
    ∧ ((∀ f ∈ frames, f = none) →
        drainNodeIds none frames = none ∧ drainReceives none frames = frames.length) :=
  ⟨drainNodeIds_finds frames,
   fun h => ⟨drainNodeIds_all_none frames h, drainReceives_all_none frames h⟩⟩

/-- C7 witness: on two unpopulated frames the drain loop performs two receives
and finds nothing. -/
theorem search_drain_spec_witness :
    drainNodeIds none [none, none] = none ∧ drainReceives none [none, none] = 2 := by
  have h := (search_drain_spec [none, none]).2 (by decide)
  exact ⟨h.1, h.2⟩

/-- C9 counterexample: a malformed frame makes the reader loop `break`: a
well-formed reply following it is never dispatched and its pending request
stays outstanding, while the same reply alone resolves the request — the
connection does not stay alive past the malformed frame. -/
theorem reader_malformed_counterexample :
    runReader (⟨[1], [], []⟩ : DState Nat)
        [.malformed, .wellFormed ⟨some 1, none, some 42, none, none⟩]
      = (⟨[1], [], []⟩, true)
    ∧ runReader (⟨[1], [], []⟩ : DState Nat)
        [.wellFormed ⟨some 1, none, some 42, none, none⟩]
      = (⟨[], [(1, Except.ok (some 42))], []⟩, false) := by
  constructor
  · rfl
  · rfl

/-- C9 (amended): when the background reader receives a frame that fails to
parse as JSON, the failure is logged and the reader loop terminates at that
frame: every earlier well-formed frame has been dispatched, the malformed
frame itself changes nothing — in particular it fails no pending request —
and no later frame is received or dispatched. -/
theorem reader_malformed_stops {π : Type} (s : DState π) (good : List (WireMsg π))
    (rest : List (RawFrame π)) :
    runReader s (good.map RawFrame.wellFormed ++ .malformed :: rest)
      = (runDispatch s good, true) := by
  induction good generalizing s with
  | nil => rfl
  | cons f fs ih => simpa [runReader, runDispatch] using ih (processMessage s f)

/-- C2: a command whose reply never arrives fails, once the caller-supplied
timeout elapses, with a timeout error identifying the method and the elapsed
seconds, and the pending entry registered under its identifier is deleted: the
pending table is exactly what it was before the call, so no entry for that
identifier remains outstanding. -/
theorem send_command_timeout_spec {π : Type} (st : Session) (method : String) (tmo : Nat)
    (hfresh : st.nextId ∉ st.pending) :
    (send_command (π := π) st method tmo .timeout).1 = .error (.commandTimeout method tmo)
    ∧ (send_command (π := π) st method tmo .timeout).2.pending = st.pending
    ∧ st.nextId ∉ (send_command (π := π) st method tmo .timeout).2.pending := by
  have he : (st.pending ++ [st.nextId]).erase st.nextId = st.pending := by
    rw [List.erase_append_right _ hfresh, List.erase_cons_head, List.append_nil]
  exact ⟨rfl, by simp [send_command, he], by simp [send_command, he]; exact hfresh⟩

/-- C2 witness: a `Page.navigate` timing out after 30 seconds in a fresh
session. -/
theorem send_command_timeout_spec_witness :
    (send_command (π := Nat) ⟨[], 1⟩ "Page.navigate" 30 .timeout).1
        = .error (.commandTimeout "Page.navigate" 30)
    ∧ (send_command (π := Nat) ⟨[], 1⟩ "Page.navigate" 30 .timeout).2.pending = [] := by
  have h := send_command_timeout_spec (π := Nat) ⟨[], 1⟩ "Page.navigate" 30 (by simp)
  exact ⟨h.1, h.2.1⟩

lemma sessStep_nextId_le (st : Session) (op : SessOp) :
    st.nextId ≤ (sessStep st op).nextId := by
  cases op with
  | sendCmd => exact Nat.le_succ _
  | recvReply i => simp only [sessStep]; split <;> exact le_refl _
  | timeoutCmd i => exact le_refl _

lemma sessStep_inv (st : Session) (op : SessOp)
    (h1 : st.pending.Nodup) (h2 : ∀ i ∈ st.pending, i < st.nextId) :
    (sessStep st op).pending.Nodup
    ∧ ∀ i ∈ (sessStep st op).pending, i < (sessStep st op).nextId := by
  cases op with
  | sendCmd =>
    simp only [sessStep]
    constructor
    · rw [List.nodup_append]
      exact ⟨h1, List.nodup_singleton _,
        fun i hi hmem => absurd (List.mem_singleton.mp hmem ▸ h2 i hi) (lt_irrefl _)⟩
    · intro i hi
      rcases List.mem_append.mp hi with hi | hi
      · exact Nat.lt_succ_of_lt (h2 i hi)
      · rw [List.mem_singleton.mp hi]; exact Nat.lt_succ_self _
  | recvReply j =>
    simp only [sessStep]
    split
    · exact ⟨h1.erase j, fun i hi => h2 i (List.mem_of_mem_erase hi)⟩
    · exact ⟨h1, h2⟩
  | timeoutCmd j =>
    exact ⟨h1.erase j, fun i hi => h2 i (List.mem_of_mem_erase hi)⟩

lemma runSession_inv (ops : List SessOp) (st : Session)
    (h1 : st.pending.Nodup) (h2 : ∀ i ∈ st.pending, i < st.nextId) :
    (runSession st ops).pending.Nodup
    ∧ ∀ i ∈ (runSession st ops).pending, i < (runSession st ops).nextId := by
  induction ops generalizing st with
  | nil => exact ⟨h1, h2⟩
  | cons op rest ih =>
    obtain ⟨g1, g2⟩ := sessStep_inv st op h1 h2
    exact ih (sessStep st op) g1 g2

lemma issuedIds_lb (ops : List SessOp) (st : Session) :
    ∀ x ∈ issuedIds st ops, st.nextId ≤ x := by
  induction ops generalizing st with
  | nil => intro x hx; cases hx
  | cons op rest ih =>
    intro x hx
    cases op with
    | sendCmd =>
      rcases List.mem_cons.mp hx with hx | hx
      · exact hx.ge
      · exact le_trans (sessStep_nextId_le st .sendCmd) (ih (sessStep st .sendCmd) x hx)
    | recvReply j =>
      exact le_trans (sessStep_nextId_le st (.recvReply j)) (ih _ x hx)
    | timeoutCmd j =>
      exact le_trans (sessStep_nextId_le st (.timeoutCmd j)) (ih _ x hx)

lemma issuedIds_sorted (ops : List SessOp) (st : Session) :
    (issuedIds st ops).Pairwise (· < ·) := by
  induction ops generalizing st with
  | nil => exact List.Pairwise.nil
  | cons op rest ih =>
    cases op with
    | sendCmd =>
      refine List.pairwise_cons.mpr ⟨fun b hb => ?_, ih _⟩
      exact lt_of_lt_of_le (Nat.lt_succ_self _) (issuedIds_lb rest (sessStep st .sendCmd) b hb)
    | recvReply j => exact ih _
    | timeoutCmd j => exact ih _

/-- C3: request identifiers come from a single monotonically increasing
counter — along every session trace each issued identifier is strictly
greater than every earlier one, so none is ever reused — and at every
reachable state the pending-request table holds at most one entry per
identifier. -/
theorem request_id_invariants (ops : List SessOp) :
    (issuedIds initSession ops).Pairwise (· < ·)
    ∧ (issuedIds initSession ops).Nodup
    ∧ (runSession initSession ops).pending.Nodup := by
  refine ⟨issuedIds_sorted ops initSession, ?_, ?_⟩
  · exact (issuedIds_sorted ops initSession).imp Nat.ne_of_lt
  · exact (runSession_inv ops initSession (by simp [initSession]) (by simp [initSession])).1

lemma rlookup_append_ne {α : Type} {i j : Nat} (hne : j ≠ i) (r : List (Nat × α)) (o : α) :
    rlookup i (r ++ [(j, o)]) = rlookup i r := by
  induction r with
  | nil => simp [rlookup, hne]
  | cons p t ih =>
    obtain ⟨a, b⟩ := p
    simp only [List.cons_append, rlookup]
    by_cases hai : a = i
    · rw [if_pos hai, if_pos hai]
    · rw [if_neg hai, if_neg hai]; exact ih

lemma rlookup_append_some {α : Type} {i : Nat} (r : List (Nat × α)) (o : α)
    (h : rlookup i r = none) : rlookup i (r ++ [(i, o)]) = some o := by
  induction r with
  | nil => simp [rlookup]
  | cons p t ih =>
    obtain ⟨a, b⟩ := p
    simp only [List.cons_append, rlookup] at h ⊢
    by_cases hai : a = i
    · rw [if_pos hai] at h; exact Option.noConfusion h
    · rw [if_neg hai] at h ⊢; exact ih h

lemma processMessage_resolve {π : Type} {s : DState π} {f : WireMsg π} {i : Nat}
    (hr : f.rid = some i) (hmem : i ∈ s.pending) :
    processMessage s f
      = ⟨s.pending.erase i, s.resolved ++ [(i, frameOutcome f)], s.events⟩ := by
  obtain ⟨rid, m, res, err, par⟩ := f
  cases rid with
  | none => exact Option.noConfusion hr
  | some j =>
    obtain rfl : j = i := Option.some.inj hr
    simp [processMessage, hmem]

lemma processMessage_frozen {π : Type} {s : DState π} {i : Nat} (f : WireMsg π)
    (hi : i ∉ s.pending) :
    rlookup i (processMessage s f).resolved = rlookup i s.resolved
    ∧ i ∉ (processMessage s f).pending := by
  obtain ⟨rid, m, res, err, par⟩ := f
  cases rid with
  | none => cases m <;> exact ⟨rfl, hi⟩
  | some j =>
    by_cases hj : j ∈ s.pending
    · have hji : j ≠ i := fun h => hi (h ▸ hj)
      constructor
      · simp only [processMessage, if_pos hj]
        exact rlookup_append_ne hji _ _
      · simp only [processMessage, if_pos hj]
        exact fun hmem => hi (List.mem_of_mem_erase hmem)
    · cases m <;> simp only [processMessage, if_neg hj, true_and] <;> exact hi

lemma runDispatch_cons {π : Type} (s : DState π) (f : WireMsg π) (fs : List (WireMsg π)) :
    runDispatch s (f :: fs) = runDispatch (processMessage s f) fs := rfl

lemma runDispatch_frozen {π : Type} :
    ∀ (frames : List (WireMsg π)) (s : DState π) (i : Nat), i ∉ s.pending →
      rlookup i (runDispatch s frames).resolved = rlookup i s.resolved
      ∧ i ∉ (runDispatch s frames).pending := by
  intro frames
  induction frames with
  | nil => exact fun s i hi => ⟨rfl, hi⟩
  | cons f fs ih =>
    intro s i hi
    have h1 := processMessage_frozen f hi
    have h2 := ih (processMessage s f) i h1.2
    exact ⟨h2.1.trans h1.1, h2.2⟩

lemma processMessage_keep {π : Type} {s : DState π} {i : Nat} (f : WireMsg π)
    (hnd : s.pending.Nodup) (hmem : i ∈ s.pending) (hnone : rlookup i s.resolved = none)
    (hr : f.rid ≠ some i) :
    (processMessage s f).pending.Nodup
    ∧ i ∈ (processMessage s f).pending
    ∧ rlookup i (processMessage s f).resolved = none := by
  obtain ⟨rid, m, res, err, par⟩ := f
  cases rid with
  | none => cases m <;> exact ⟨hnd, hmem, hnone⟩
  | some j =>
    have hji : j ≠ i := fun h => hr (by simp [h])
    by_cases hj : j ∈ s.pending
    · refine ⟨?_, ?_, ?_⟩ <;> simp only [processMessage, if_pos hj]
      · exact hnd.erase j
      · exact (List.mem_erase_of_ne hji.symm).mpr hmem
      · rw [rlookup_append_ne hji]; exact hnone
    · cases m <;> simp only [processMessage, if_neg hj] <;> exact ⟨hnd, hmem, hnone⟩

lemma runDispatch_resolves {π : Type} :
    ∀ (frames : List (WireMsg π)) (s : DState π) (i : Nat),
      s.pending.Nodup → i ∈ s.pending → rlookup i s.resolved = none →
      rlookup i (runDispatch s frames).resolved
        = (frames.find? (isReplyTo i)).map frameOutcome := by
  intro frames
  induction frames with
  | nil => intro s i _ _ hnone; simpa [runDispatch] using hnone
  | cons f fs ih =>
    intro s i hnd hmem hnone
    by_cases hrep : isReplyTo i f = true
    · have hr : f.rid = some i := by simpa [isReplyTo] using hrep
      rw [runDispatch_cons, processMessage_resolve hr hmem]
      have hi' : i ∉ (⟨s.pending.erase i, s.resolved ++ [(i, frameOutcome f)],
          s.events⟩ : DState π).pending := by
        intro hh
        exact absurd ((List.Nodup.mem_erase_iff hnd).mp hh).1 (by simp)
      rw [(runDispatch_frozen fs _ i hi').1]
      show rlookup i (s.resolved ++ [(i, frameOutcome f)]) = _
      rw [rlookup_append_some _ _ hnone, List.find?_cons_of_pos _ hrep]
      rfl
    · have hr : f.rid ≠ some i := by simpa [isReplyTo] using hrep
      obtain ⟨g1, g2, g3⟩ := processMessage_keep f hnd hmem hnone hr
      rw [runDispatch_cons, ih _ i g1 g2 g3,
        List.find?_cons_of_neg _ (by simpa [isReplyTo] using hrep)]

lemma processMessage_events_reply {π : Type} {s : DState π} {f : WireMsg π}
    (hm : f.method = none) : (processMessage s f).events = s.events := by
  obtain ⟨rid, m, res, err, par⟩ := f
  obtain rfl : m = none := hm
  cases rid with
  | none => rfl
  | some j =>
    by_cases hj : j ∈ s.pending <;> simp [processMessage, hj]

lemma processMessage_events_notif {π : Type} {s : DState π} {f : WireMsg π} {mm : String}
    (hrid : f.rid = none) (hm : f.method = some mm) :
    processMessage s f = ⟨s.pending, s.resolved, s.events ++ [(mm, f.params)]⟩ := by
  obtain ⟨rid, m, res, err, par⟩ := f
  obtain rfl : rid = none := hrid
  obtain rfl : m = some mm := hm
  rfl

lemma notifEvent_of_reply {π : Type} {f : WireMsg π} (hsome : f.rid.isSome) :
    notifEvent f = none := by
  obtain ⟨j, hj⟩ := Option.isSome_iff_exists.mp hsome
  simp [notifEvent, hj]

lemma runDispatch_events {π : Type} :
    ∀ (frames : List (WireMsg π)) (s : DState π), (∀ f ∈ frames, WfWire f) →
      (runDispatch s frames).events = s.events ++ frames.filterMap notifEvent := by
  intro frames
  induction frames with
  | nil => intro s _; simp [runDispatch]
  | cons f fs ih =>
    intro s hwf
    have htail : ∀ g ∈ fs, WfWire g := fun g hg => hwf g (by simp [hg])
    rcases hwf f (by simp) with ⟨hsome, hm⟩ | ⟨hrid, hmsome⟩
    · rw [runDispatch_cons, ih _ htail, processMessage_events_reply hm,
        List.filterMap_cons_none (notifEvent_of_reply hsome)]
    · obtain ⟨mm, hmm⟩ := Option.isSome_iff_exists.mp hmsome
      rw [runDispatch_cons, processMessage_events_notif hrid hmm, ih _ htail]
      have hne : notifEvent f = some (mm, f.params) := by simp [notifEvent, hrid, hmm]
      rw [List.filterMap_cons_some hne]
      simp

/-- C1: over any sequence of well-formed incoming frames (each a reply or a
notification) and any set of pending requests with distinct identifiers, the
dispatch loop completes each pending request with exactly the first reply
whose `id` equals that request's identifier — independent of how
notifications interleave — and every notification is delivered to the event
subscribers, never to a pending request. -/
theorem dispatch_correlation {π : Type} (p₀ : List Nat) (frames : List (WireMsg π))
    (hnodup : p₀.Nodup) (hwf : ∀ f ∈ frames, WfWire f) :
    (∀ i ∈ p₀, rlookup i (runDispatch ⟨p₀, [], []⟩ frames).resolved
        = (frames.find? (isReplyTo i)).map frameOutcome)
    ∧ (runDispatch (⟨p₀, [], []⟩ : DState π) frames).events
        = frames.filterMap notifEvent := by
  constructor
  · intro i hi
    exact runDispatch_resolves frames ⟨p₀, [], []⟩ i hnodup hi rfl
  · rw [runDispatch_events frames _ hwf]
    rfl

/-- C1 witness: two pending commands, a notification, then the two replies
out of order; each caller gets its own reply and the notification reaches the
subscribers. -/
theorem dispatch_correlation_witness :
    rlookup 1 (runDispatch (⟨[1, 2], [], []⟩ : DState Nat)
        [⟨none, some "Page.loadEventFired", none, none, none⟩,
         ⟨some 2, none, some 7, none, none⟩,
         ⟨some 1, none, none, some "boom", none⟩]).resolved = some (.error "boom")
    ∧ rlookup 2 (runDispatch (⟨[1, 2], [], []⟩ : DState Nat)
        [⟨none, some "Page.loadEventFired", none, none, none⟩,
         ⟨some 2, none, some 7, none, none⟩,
         ⟨some 1, none, none, some "boom", none⟩]).resolved = some (.ok (some 7))
    ∧ (runDispatch (⟨[1, 2], [], []⟩ : DState Nat)
        [⟨none, some "Page.loadEventFired", none, none, none⟩,
         ⟨some 2, none, some 7, none, none⟩,
         ⟨some 1, none, none, some "boom", none⟩]).events
        = [("Page.loadEventFired", none)] := by
  have h := dispatch_correlation (π := Nat) [1, 2]
    [⟨none, some "Page.loadEventFired", none, none, none⟩,
     ⟨some 2, none, some 7, none, none⟩,
     ⟨some 1, none, none, some "boom", none⟩]
    (by decide) (by decide)
  exact ⟨(h.1 1 (by decide)).trans (by decide),
         (h.1 2 (by decide)).trans (by decide),
         h.2.trans (by decide)⟩

lemma exists_split_cons {α : Type} (a : α) (l : List α) (P : List α → α → Prop) :
    (∃ pre it post, a :: l = pre ++ it :: post ∧ P pre it)
      ↔ P [] a ∨ ∃ pre it post, l = pre ++ it :: post ∧ P (a :: pre) it := by
  constructor
  · rintro ⟨pre, it, post, heq, hp⟩
    cases pre with
    | nil =>
      simp only [List.nil_append] at heq
      injection heq with h1 h2
      subst h1
      exact .inl hp
    | cons b pre2 =>
      simp only [List.cons_append] at heq
      injection heq with h1 h2
      subst h1
      exact .inr ⟨pre2, it, post, h2, hp⟩
  · rintro (hp | ⟨pre, it, post, heq, hp⟩)
    · exact ⟨[], a, l, rfl, hp⟩
    · exact ⟨a :: pre, it, post, by rw [List.cons_append, heq], hp⟩

lemma loadFold_cons (s : LoadState) (x : LoadItem) (l : List LoadItem) :
    loadFold s (x :: l) = loadFold (loadFoldStep s x) l := rfl

lemma page_load_settles_iff (tmo : ℚ) :
    ∀ (items : List LoadItem) (s : LoadState),
      wait_for_page_load tmo s items = some .settled ↔
        ∃ pre it post, items = pre ++ it :: post
          ∧ (∀ x ∈ pre, x.t ≤ tmo) ∧ it.t ≤ tmo ∧ it.recv ≠ .badJson
          ∧ loadSettledCond (loadFold s (pre ++ [it])) = true := by
  intro items
  induction items with
  | nil =>
    intro s
    constructor
    · intro h; exact Option.noConfusion h
    · rintro ⟨pre, it, post, heq, -⟩
      cases pre <;> simp at heq
  | cons it0 rest ih =>
    intro s
    rw [exists_split_cons it0 rest (fun pre it => (∀ x ∈ pre, x.t ≤ tmo) ∧ it.t ≤ tmo
      ∧ it.recv ≠ .badJson ∧ loadSettledCond (loadFold s (pre ++ [it])) = true)]
    by_cases hT : tmo < it0.t
    · refine iff_of_false ?_ ?_
      · simp only [wait_for_page_load, if_pos hT]
        intro h
        injection h with h
        exact LoadOutcome.noConfusion h
      · rintro (⟨-, hle, -, -⟩ | ⟨pre, it, post, -, hall, -⟩)
        · exact absurd hT (not_lt.mpr hle)
        · exact absurd hT (not_lt.mpr (hall it0 (by simp)))
    · have hle : it0.t ≤ tmo := not_lt.mp hT
      rcases hr : it0.recv with _ | _ | e
      · have hstep : loadFoldStep s it0 = s := by simp [loadFoldStep, hr]
        by_cases hc : loadSettledCond s = true
        · refine iff_of_true ?_ (.inl ⟨by simp, hle, by simp [hr], ?_⟩)
          · simp [wait_for_page_load, if_neg hT, hr, hc]
          · simpa [loadFold, loadFoldStep, hr] using hc
        · have hL : wait_for_page_load tmo s (it0 :: rest) = wait_for_page_load tmo s rest := by
            simp [wait_for_page_load, if_neg hT, hr, hc]
          rw [hL, ih s, or_iff_right ?_]
          · exact exists_congr fun pre => exists_congr fun it => exists_congr fun post =>
              and_congr_right fun _ => by
                simp [List.forall_mem_cons, loadFold_cons, hstep, hle]
          · rintro ⟨-, -, -, h4⟩
            rw [show loadFold s ([] ++ [it0]) = s from by
              simp [loadFold, loadFoldStep, hr]] at h4
            exact hc h4
      · have hstep : loadFoldStep s it0 = s := by simp [loadFoldStep, hr]
        have hL : wait_for_page_load tmo s (it0 :: rest) = wait_for_page_load tmo s rest := by
          simp [wait_for_page_load, if_neg hT, hr]
        rw [hL, ih s, or_iff_right ?_]
        · exact exists_congr fun pre => exists_congr fun it => exists_congr fun post =>
            and_congr_right fun _ => by
              simp [List.forall_mem_cons, loadFold_cons, hstep, hle]
        · rintro ⟨-, -, h3, -⟩
          exact h3 rfl
      · have hstep : loadFoldStep s it0 = pgStep s e := by simp [loadFoldStep, hr]
        by_cases hc : loadSettledCond (pgStep s e) = true
        · refine iff_of_true ?_ (.inl ⟨by simp, hle, by simp [hr], ?_⟩)
          · simp [wait_for_page_load, if_neg hT, hr, hc]
          · simpa [loadFold, loadFoldStep, hr] using hc
        · have hL : wait_for_page_load tmo s (it0 :: rest)
              = wait_for_page_load tmo (pgStep s e) rest := by
            simp [wait_for_page_load, if_neg hT, hr, hc]
          rw [hL, ih (pgStep s e), or_iff_right ?_]
          · exact exists_congr fun pre => exists_congr fun it => exists_congr fun post =>
              and_congr_right fun _ => by
                simp [List.forall_mem_cons, loadFold_cons, hstep, hle]
          · rintro ⟨-, -, -, h4⟩
            rw [show loadFold s ([] ++ [it0]) = pgStep s e from by
              simp [loadFold, loadFoldStep, hr]] at h4
            exact hc h4

lemma pgStep_loadFired {s : LoadState} {e : PgEvent} (he : e ≠ .loadFired) :
    (pgStep s e).loadFired = s.loadFired := by
  cases e <;> first | rfl | exact absurd rfl he

lemma page_load_no_load_times_out (tmo : ℚ) :
    ∀ (items : List LoadItem) (s : LoadState), s.loadFired = false →
      (∀ it ∈ items, it.recv ≠ .msg .loadFired) →
      (∃ it ∈ items, tmo < it.t) →
      wait_for_page_load tmo s items = some .timedOut := by
  intro items
  induction items with
  | nil =>
    rintro s - - ⟨it, hmem, -⟩
    cases hmem
  | cons it0 rest ih =>
    intro s hlf hall hex
    by_cases hT : tmo < it0.t
    · simp [wait_for_page_load, if_pos hT]
    · have hx : ∃ it ∈ rest, tmo < it.t := by
        rcases hex with ⟨it, hmem, hlt⟩
        rcases List.mem_cons.mp hmem with rfl | hmem2
        · exact absurd hlt hT
        · exact ⟨it, hmem2, hlt⟩
      have htail : ∀ it ∈ rest, it.recv ≠ .msg .loadFired := fun it h => hall it (by simp [h])
      rcases hr : it0.recv with _ | _ | e
      · have hc : loadSettledCond s = false := by simp [loadSettledCond, hlf]
        have hL : wait_for_page_load tmo s (it0 :: rest) = wait_for_page_load tmo s rest := by
          simp [wait_for_page_load, if_neg hT, hr, hc]
        rw [hL]
        exact ih s hlf htail hx
      · have hL : wait_for_page_load tmo s (it0 :: rest) = wait_for_page_load tmo s rest := by
          simp [wait_for_page_load, if_neg hT, hr]
        rw [hL]
        exact ih s hlf htail hx
      · have he : e ≠ .loadFired := by
          intro hh
          exact hall it0 (by simp) (by rw [hr, hh])
        have hlf1 : (pgStep s e).loadFired = false := by rw [pgStep_loadFired he, hlf]
        have hc : loadSettledCond (pgStep s e) = false := by simp [loadSettledCond, hlf1]
        have hL : wait_for_page_load tmo s (it0 :: rest)
            = wait_for_page_load tmo (pgStep s e) rest := by
          simp [wait_for_page_load, if_neg hT, hr, hc]
        rw [hL]
        exact ih (pgStep s e) hlf1 htail hx

/-- C4: starting from a fresh wait, the page-load wait returns Settled exactly
when some iteration — with every elapsed-time check up to and including it
within the overall timeout, and not a JSON-decode failure — observes that a
top-level load event has fired and the loading-frame set (grown on
frame-started, shrunk on frame-stopped and frame-detached) is empty; and on
any input whose events contain no load-fired notification, once the timeout
is exceeded the wait always ends by timing out. -/
theorem page_load_settled_spec (tmo : ℚ) (items : List LoadItem) :
    (wait_for_page_load tmo initLoad items = some .settled ↔
      ∃ pre it post, items = pre ++ it :: post
        ∧ (∀ x ∈ pre, x.t ≤ tmo) ∧ it.t ≤ tmo ∧ it.recv ≠ .badJson
        ∧ loadSettledCond (loadFold initLoad (pre ++ [it])) = true)
    ∧ ((∀ it ∈ items, it.recv ≠ .msg .loadFired)
        → (∃ it ∈ items, tmo < it.t)
        → wait_for_page_load tmo initLoad items = some .timedOut) :=
  ⟨page_load_settles_iff tmo items initLoad,
   fun h1 h2 => page_load_no_load_times_out tmo items initLoad rfl h1 h2⟩

/-- C4 witness: a load event on a quiet page settles the wait; frame-only
traffic with the timeout exceeded times it out. -/
theorem page_load_settled_spec_witness :
    wait_for_page_load 30 initLoad [⟨1, .msg .loadFired⟩] = some .settled
    ∧ wait_for_page_load 5 initLoad [⟨1, .msg (.frameStarted 3)⟩, ⟨6, .rto⟩]
        = some .timedOut := by
  constructor
  · exact (page_load_settled_spec 30 [⟨1, .msg .loadFired⟩]).1.mpr
      ⟨[], ⟨1, .msg .loadFired⟩, [], rfl, by simp, by norm_num, by decide, by decide⟩
  · exact (page_load_settled_spec 5 [⟨1, .msg (.frameStarted 3)⟩, ⟨6, .rto⟩]).2
      (by decide) ⟨⟨6, .rto⟩, by simp, by norm_num⟩

lemma domFold_cons (tmo inact : ℚ) (s : DomState) (x : DomItem) (l : List DomItem) :
    domFold tmo inact s (x :: l) = domFold tmo inact (domNext tmo inact s x) l := rfl

lemma dom_first_exit_iff (tmo inact : ℚ) :
    ∀ (items : List DomItem) (s : DomState) (er : DomExit × DomResult),
      wait_for_page_dom_load tmo inact s items = some er ↔
        ∃ pre it post, items = pre ++ it :: post
          ∧ domAllOk tmo inact s pre = true
          ∧ domIterate tmo inact (domFold tmo inact s pre) it = .error er := by
  intro items
  induction items with
  | nil =>
    intro s er
    constructor
    · intro h; exact Option.noConfusion h
    · rintro ⟨pre, it, post, heq, -⟩
      cases pre <;> simp at heq
  | cons it0 rest ih =>
    intro s er
    rw [exists_split_cons it0 rest (fun pre it => domAllOk tmo inact s pre = true
      ∧ domIterate tmo inact (domFold tmo inact s pre) it = .error er)]
    cases hi : domIterate tmo inact s it0 with
    | error e0 =>
      have hw : wait_for_page_dom_load tmo inact s (it0 :: rest) = some e0 := by
        simp [wait_for_page_dom_load, hi]
      rw [hw]
      constructor
      · intro h
        obtain rfl : e0 = er := Option.some.inj h
        exact .inl ⟨rfl, hi⟩
      · rintro (⟨-, hp⟩ | ⟨pre, it, post, -, hall, -⟩)
        · rw [show domFold tmo inact s [] = s from rfl, hi] at hp
          injection hp with hp
          rw [hp]
        · rw [show domAllOk tmo inact s (it0 :: pre)
              = false from by simp [domAllOk, hi]] at hall
          exact Bool.noConfusion hall
    | ok s1 =>
      have hw : wait_for_page_dom_load tmo inact s (it0 :: rest)
          = wait_for_page_dom_load tmo inact s1 rest := by
        simp [wait_for_page_dom_load, hi]
      rw [hw, ih s1 er, or_iff_right ?_]
      · exact exists_congr fun pre => exists_congr fun it => exists_congr fun post =>
          and_congr_right fun _ => by
            simp [domAllOk, hi, domFold_cons, domNext]
      · rintro ⟨-, hp⟩
        rw [show domFold tmo inact s [] = s from rfl, hi] at hp
        exact Except.noConfusion hp

lemma domIterate_error_status {tmo inact : ℚ} {s : DomState} {it : DomItem}
    {er : DomExit × DomResult} (h : domIterate tmo inact s it = .error er) :
    er.2.status = "completed" := by
  unfold domIterate at h
  split at h
  · injection h with h; rw [← h]; rfl
  · split at h
    · injection h with h; rw [← h]; rfl
    · split at h
      · exact Except.noConfusion h
      · exact Except.noConfusion h
      · unfold domClassify at h
        split at h
        · split at h
          · injection h with h; rw [← h]; rfl
          · exact Except.noConfusion h
        · exact Except.noConfusion h

/-- C5 (amended): the DOM-stability wait ends at the first iteration whose
exit check fires — overall timeout elapsed, or no parsed message within the
inactivity window (any parsed message refreshes the activity clock), or a
load-fired event processed while no frame is loading — and in every case the
result it returns carries the constant status `"completed"` (so it does not
identify which condition fired) together with the active-frame count, the
DOM-activity flag, the load-event flag and the elapsed duration. -/
theorem dom_wait_first_exit (tmo inact : ℚ) (items : List DomItem) (s : DomState)
    (er : DomExit × DomResult) :
    (wait_for_page_dom_load tmo inact s items = some er ↔
      ∃ pre it post, items = pre ++ it :: post
        ∧ domAllOk tmo inact s pre = true
        ∧ domIterate tmo inact (domFold tmo inact s pre) it = .error er)
    ∧ (wait_for_page_dom_load tmo inact s items = some er → er.2.status = "completed") := by
  refine ⟨dom_first_exit_iff tmo inact items s er, fun h => ?_⟩
  obtain ⟨pre, it, post, -, -, hit⟩ := (dom_first_exit_iff tmo inact items s er).mp h
  exact domIterate_error_status hit

/-- C5 witness: a receive-timeout iteration observed past the deadline ends
the wait with the timeout break and the constant `"completed"` status. -/
theorem dom_wait_first_exit_witness :
    wait_for_page_dom_load 5 100 initDom [⟨7, .rto⟩]
      = some (.byTimeout, ⟨"completed", 0, false, false, 7⟩) := by
  refine (dom_wait_first_exit 5 100 [⟨7, .rto⟩] initDom
      (.byTimeout, ⟨"completed", 0, false, false, 7⟩)).1.mpr
    ⟨[], ⟨7, .rto⟩, [], rfl, rfl, ?_⟩
  show domIterate 5 100 initDom ⟨7, .rto⟩ = _
  rw [domIterate, if_pos (show (5 : ℚ) < 7 by norm_num)]
  rfl

/-- C5 counterexample: the returned result object does not report which
condition ended the wait — a timeout break and an inactivity break produce
identical result dictionaries (`status` is always `"completed"`) — and the
wait can also end on a load-fired event before either the inactivity window
or the overall timeout has elapsed. -/
theorem dom_wait_exit_counterexample :
    wait_for_page_dom_load 5 100 initDom [⟨6, .rto⟩]
      = some (.byTimeout, ⟨"completed", 0, false, false, 6⟩)
    ∧ wait_for_page_dom_load 100 5 initDom [⟨6, .rto⟩]
      = some (.byInactivity, ⟨"completed", 0, false, false, 6⟩)
    ∧ wait_for_page_dom_load 100 100 initDom [⟨1, .msg 1 .loadFired⟩]
      = some (.byLoadEvent, ⟨"completed", 0, false, true, 1⟩)
    ∧ DomExit.byTimeout ≠ DomExit.byInactivity := by
  refine ⟨?_, ?_, ?_, by decide⟩
  · show (match domIterate 5 100 initDom ⟨6, .rto⟩ with
      | .error er => some er
      | .ok s1 => wait_for_page_dom_load 5 100 s1 []) = _
    rw [domIterate, if_pos (show (5 : ℚ) < 6 by norm_num)]
    rfl
  · show (match domIterate 100 5 initDom ⟨6, .rto⟩ with
      | .error er => some er
      | .ok s1 => wait_for_page_dom_load 100 5 s1 []) = _
    rw [domIterate, if_neg (show ¬ (100 : ℚ) < 6 by norm_num),
      if_pos (show (5 : ℚ) < 6 - initDom.lastActivity by norm_num [initDom])]
    rfl
  · show (match domIterate 100 100 initDom ⟨1, .msg 1 .loadFired⟩ with
      | .error er => some er
      | .ok s1 => wait_for_page_dom_load 100 100 s1 []) = _
    rw [domIterate, if_neg (show ¬ (100 : ℚ) < 1 by norm_num),
      if_neg (show ¬ (100 : ℚ) < 1 - initDom.lastActivity by norm_num [initDom])]
    rfl

end CdpUi
